import Mathlib

/-!
Verification development for the crypto price-alert bot (`src/bot.py`).

The live code (the uncommented half of `bot.py`) is shallowly embedded here:
the persisted JSON object `prices.json` becomes an association list from the
owner's user-id string to that owner's list of alerts; Python floats used for
thresholds and fetched prices are modelled by rationals (only order
comparisons are performed on them); the handlers `add_alert`, `remove_alert`
and the polling job `check_prices` become pure functions over that state, with
raisable operations (the price fetch, `send_message`, `json.load`) modelled by
`Except` or by boolean/option-valued oracles passed in as arguments.
-/

/-- Prices and thresholds. The Python code stores `float` values and only ever
compares them with `>=` / `<=` in the alert logic, so rationals are a faithful
carrier for the properties proved here. -/
abbrev Price := ℚ

/-- Record stored per alert in `prices.json`: the dict
`{"coin": ..., "symbol": ..., "price": ..., "direction": ...}` appended by
`add_alert` (src/bot.py:428-433). -/
structure Alert where
  coin : String
  symbol : String
  price : Price
  direction : String
deriving DecidableEq, Repr

/-- The persisted collection loaded from `prices.json`: a JSON object mapping
the owner's user-id (a string) to their list of alerts. Python dicts preserve
insertion order and have unique keys; the association list mirrors that. -/
abbrev AlertStore := List (String × List Alert)

/-- Symbol-to-CoinGecko-id map `SYMBOL_MAP` (src/bot.py:346-357). -/
def SYMBOL_MAP : List (String × String) :=
  [("btc", "bitcoin"), ("eth", "ethereum"), ("bnb", "binancecoin"),
   ("sol", "solana"), ("ada", "cardano"), ("doge", "dogecoin"),
   ("xrp", "ripple"), ("meme", "meme"), ("moxie", "moxie"),
   ("degen", "degen-base")]

/-- Lookup of an owner's alert list: `alerts.get(str(user_id), [])`
(src/bot.py:427,444,464). Dict keys are unique, so returning the first
matching entry is exact. -/
def listByOwner : AlertStore → String → List Alert
  | [], _ => []
  | p :: t, u => if p.1 = u then p.2 else listByOwner t u

/-- All alerts across all owners, in store order (the matcher's batch read:
the iteration `for user_id, user_alerts in alerts.items()` flattened). -/
def listAll : AlertStore → List Alert
  | [] => []
  | p :: t => p.2 ++ listAll t

/-- Dict assignment `alerts[str(user_id)] = user_alerts`: an existing key
keeps its position and gets the new value, a new key is appended at the
end. -/
def setOwner : AlertStore → String → List Alert → AlertStore
  | [], u, l => [(u, l)]
  | p :: t, u, l => if p.1 = u then (u, l) :: t else p :: setOwner t u l

/-- Dict removal `alerts.pop(str(user_id))` (src/bot.py:473,539). -/
def popOwner : AlertStore → String → AlertStore
  | [], _ => []
  | p :: t, u => if p.1 = u then t else p :: popOwner t u

/-- Content of the backing file `prices.json` as seen by `load_alerts`. -/
inductive FileContent where
  | missing
  | corrupt
  | wellFormed (s : AlertStore)

/-- Translation of `load_alerts` (src/bot.py:328-332):

    def load_alerts():
        if os.path.exists(ALERT_FILE):
            with open(ALERT_FILE, 'r') as f:
                return json.load(f)
        return {}

There is no exception handling around `json.load`, so a file that exists but
does not parse makes `json.load` raise, and the exception propagates to the
caller; that outcome is `Except.error ()`. A missing file yields the empty
dict. -/
def load_alerts : FileContent → Except Unit AlertStore
  | FileContent.missing => Except.ok []
  | FileContent.corrupt => Except.error ()
  | FileContent.wellFormed s => Except.ok s

/-- Error outcomes of the `/add` handler before any store mutation. -/
inductive AddError where
  | unsupportedCoin
  | invalidPrice
deriving DecidableEq, Repr

/-- Python's `str.lower()` on the ASCII command arguments, implemented
structurally (character-wise) so that proofs can evaluate it. -/
def lower (s : String) : String := ⟨s.data.map Char.toLower⟩

/-- Direction argument handling in `add_alert` (src/bot.py:422-424):
`direction = "above"` unless a third argument lowercases to
`"above"` or `"below"`. -/
def parsedDirection (dirArg : Option String) : String :=
  match dirArg with
  | some d => if ["above", "below"].contains (lower d) then lower d else "above"
  | none => "above"

/-- Translation of the `/add` handler `add_alert` (src/bot.py:401-437), after
argument splitting. `priceArg` models the outcome of `float(context.args[1])`:
`none` when that call raises `ValueError`, `some p` with the parsed value
otherwise (so e.g. the argument string "0" yields `some 0` and "-5" yields
`some (-5)` — `float` parses any numeral, with no sign restriction).
The checks appear in source order: symbol lookup in `SYMBOL_MAP`, then the
price parse, then the optional direction; on success the new alert dict is
appended to the owner's list and the store is saved. -/
def add_alert (userId : String) (symbolArg : String) (priceArg : Option Price)
    (dirArg : Option String) (s : AlertStore) : Except AddError AlertStore :=
  let symbol := lower symbolArg
  match SYMBOL_MAP.lookup symbol with
  | none => Except.error AddError.unsupportedCoin
  | some coin =>
    match priceArg with
    | none => Except.error AddError.invalidPrice
    | some price =>
      let direction := parsedDirection dirArg
      let user_alerts := listByOwner s userId
      Except.ok (setOwner s userId
        (user_alerts ++ [{ coin := coin, symbol := symbol, price := price,
                           direction := direction }]))

/-- Error outcome of the `/remove` handler once a numeric argument exists. -/
inductive RemoveError where
  | outOfRange
deriving DecidableEq, Repr

/-- Translation of the `/remove` handler `remove_alert` (src/bot.py:454-477)
after the `isdigit` check, so the user's argument is a natural number `i`:

    idx = int(context.args[0]) - 1
    user_alerts = alerts.get(str(user_id), [])
    if idx < 0 or idx >= len(user_alerts): error
    removed = user_alerts.pop(idx)
    if user_alerts: alerts[str(user_id)] = user_alerts
    else: alerts.pop(str(user_id))
    save_alerts(alerts)

On error the handler replies and returns before `save_alerts`, so the
persisted store is unchanged; the `Except.error` branch carries no store for
that reason. The `get?` fallback branch is unreachable because the range
check has already passed. -/
def remove_alert (uid : String) (i : Nat) (s : AlertStore) :
    Except RemoveError (AlertStore × Alert) :=
  let user_alerts := listByOwner s uid
  let idx : Int := (i : Int) - 1
  if idx < 0 ∨ (user_alerts.length : Int) ≤ idx then
    Except.error RemoveError.outOfRange
  else
    match user_alerts.get? idx.toNat with
    | none => Except.error RemoveError.outOfRange
    | some removed =>
      let remaining := user_alerts.eraseIdx idx.toNat
      Except.ok
        ((if remaining.isEmpty then popOwner s uid else setOwner s uid remaining),
         removed)

/-- Trigger evaluation at src/bot.py:527-528:

    (alert["direction"] == "above" and current >= alert["price"]) or
    (alert["direction"] == "below" and current <= alert["price"])
-/
def triggered (a : Alert) (current : Price) : Bool :=
  (a.direction == "above" && decide (a.price ≤ current)) ||
  (a.direction == "below" && decide (current ≤ a.price))

/-- Whether the cycle fires an alert given the fetched mapping: the price
lookup `prices.get(alert["coin"], {}).get("usd")` (src/bot.py:524) followed by
the trigger evaluation; a missing key means the alert is skipped, never
treated as price zero. -/
def shouldTrigger (pr : String → Option Price) (a : Alert) : Bool :=
  match pr a.coin with
  | none => false
  | some cur => triggered a cur

/-- One outbound `send_message` event (src/bot.py:529-532): the chat id is the
owner's user-id and the text is built from the alert's symbol, the current
price, the direction and the threshold; the event is recorded with the alert
it was sent for. -/
structure Notif where
  owner : String
  alert : Alert
  current : Price
deriving DecidableEq, Repr

/-- Inner loop of `check_prices` over one owner's alerts
(src/bot.py:522-533): enumerate the alerts, skip those whose coin is absent
from the fetched mapping, and for each triggered alert `await send_message`
and append its index to `to_remove`. `nf` is the delivery oracle: `false`
means `send_message` raises, and — since there is no `try`/`except` around it
— the whole job aborts there (`Except.error`), carrying the notifications
already delivered. On normal completion the result is the list `to_remove`
of 0-based triggered indices (in increasing order, as `enumerate` produces
them) together with the delivered notifications. -/
def evalAlerts (pr : String → Option Price) (nf : String → Alert → Price → Bool)
    (u : String) : List Alert → Except (List Notif) (List Nat × List Notif)
  | [] => Except.ok ([], [])
  | a :: rest =>
    match pr a.coin with
    | none =>
      match evalAlerts pr nf u rest with
      | Except.error ns => Except.error ns
      | Except.ok (idxs, ns) => Except.ok (idxs.map (· + 1), ns)
    | some cur =>
      if triggered a cur then
        if nf u a cur then
          match evalAlerts pr nf u rest with
          | Except.error ns => Except.error ({ owner := u, alert := a, current := cur } :: ns)
          | Except.ok (idxs, ns) =>
            Except.ok (0 :: idxs.map (· + 1),
                       { owner := u, alert := a, current := cur } :: ns)
        else Except.error []
      else
        match evalAlerts pr nf u rest with
        | Except.error ns => Except.error ns
        | Except.ok (idxs, ns) => Except.ok (idxs.map (· + 1), ns)

/-- The removal loop `for i in reversed(to_remove): user_alerts.pop(i)`
(src/bot.py:534-535): fold `pop` over the collected indices from the largest
down. -/
def removeIndices (l : List Alert) (idxs : List Nat) : List Alert :=
  idxs.reverse.foldl (fun acc i => acc.eraseIdx i) l

/-- Processing of one owner inside `check_prices` (src/bot.py:522-535):
evaluate the alerts, then pop the triggered indices in reverse order. An
exception from `send_message` aborts before any pop. -/
def processUser (pr : String → Option Price) (nf : String → Alert → Price → Bool)
    (u : String) (l : List Alert) : Except (List Notif) (List Alert × List Notif) :=
  match evalAlerts pr nf u l with
  | Except.error ns => Except.error ns
  | Except.ok (idxs, ns) => Except.ok (removeIndices l idxs, ns)

/-- The outer loop `for user_id, user_alerts in list(alerts.items())`
(src/bot.py:521-539): process each owner in store order; an owner whose
surviving list is empty has their key popped from the dict, otherwise the
key is reassigned. An uncaught `send_message` exception propagates out of
the whole loop. -/
def runUsers (pr : String → Option Price) (nf : String → Alert → Price → Bool) :
    AlertStore → Except (List Notif) (AlertStore × List Notif)
  | [] => Except.ok ([], [])
  | (u, l) :: t =>
    match processUser pr nf u l with
    | Except.error ns => Except.error ns
    | Except.ok (l', ns) =>
      match runUsers pr nf t with
      | Except.error ns2 => Except.error (ns ++ ns2)
      | Except.ok (t', ns2) =>
        Except.ok ((if l'.isEmpty then t' else (u, l') :: t'), ns ++ ns2)

/-- Translation of the polling job `check_prices` (src/bot.py:506-540),
returning the persisted store after the job and the notifications delivered.
`s` is the collection `load_alerts()` returned; `if not alerts: return` exits
before the fetch when it is the empty dict. `fetchResult` models
`requests.get(...).json()`: `Except.error ()` when the request or the JSON
parse raises — the `except` branch logs and returns, so nothing is evaluated,
nothing deleted and `save_alerts` never runs — and `Except.ok pr` with the
parsed mapping otherwise. An exception raised by `send_message` (modelled by
`runUsers` returning `Except.error`) likewise propagates before
`save_alerts`, leaving the persisted store as it was loaded; on normal
completion the mutated dict is saved. -/
def check_prices (s : AlertStore) (fetchResult : Except Unit (String → Option Price))
    (nf : String → Alert → Price → Bool) : AlertStore × List Notif :=
  if s.isEmpty then (s, [])
  else
    match fetchResult with
    | Except.error _ => (s, [])
    | Except.ok pr =>
      match runUsers pr nf s with
      | Except.error ns => (s, ns)
      | Except.ok (s', ns) => (s', ns)

/-- Interleaving permitted by the code: `check_prices` loads the store and,
having no lock, suspends at its first `await send_message`
(src/bot.py:529); during that suspension the event loop runs the `/remove`
handler to completion against the persisted file; `check_prices` then
resumes and saves the result computed from its stale snapshot, which
becomes the final persisted state. The first component is the remove
handler's outcome (what `prices.json` briefly held), the second the store
`check_prices` finally writes over it. -/
def matcherRemoveInterleaving (s0 : AlertStore)
    (fetchResult : Except Unit (String → Option Price))
    (nf : String → Alert → Price → Bool) (u : String) (i : Nat) :
    Except RemoveError (AlertStore × Alert) × AlertStore :=
  (remove_alert u i s0, (check_prices s0 fetchResult nf).1)

/-- Well-formedness of the persisted collection as the code itself maintains
it: every owner key present maps to a non-empty alert list. -/
def WF (s : AlertStore) : Prop := ∀ p ∈ s, p.2 ≠ []

instance : DecidablePred WF := fun s =>
  decidable_of_iff (∀ p ∈ s, p.2 ≠ []) Iff.rfl

/-! ### Concrete data for witnesses and counterexamples -/

/-- Delivery oracle of a run where every `send_message` succeeds. -/
def nfTrue : String → Alert → Price → Bool := fun _ _ _ => true

/-- Delivery oracle of a run where `send_message` raises (e.g. the user has
blocked the bot). -/
def nfFalse : String → Alert → Price → Bool := fun _ _ _ => false

/-- Sample alert: bitcoin above 5. -/
def aBtc : Alert := { coin := "bitcoin", symbol := "btc", price := 5, direction := "above" }

/-- Sample alert: ethereum below 10. -/
def aEth : Alert := { coin := "ethereum", symbol := "eth", price := 10, direction := "below" }

/-- Sample alert: solana above 7. -/
def aSol : Alert := { coin := "solana", symbol := "sol", price := 7, direction := "above" }

/-- Fetched mapping containing only bitcoin at 6. -/
def prBtc : String → Option Price := fun c => if c = "bitcoin" then some 6 else none

/-- Fetched mapping containing no assets at all (e.g. the JSON body of a
rate-limited non-success response). -/
def prNone : String → Option Price := fun _ => none

/-- Sample store: the first allowed user holds two alerts, the second one. -/
def sampleStore : AlertStore :=
  [("5817239686", [aBtc, aEth]), ("5274796002", [aEth])]

/-- Sample store with three alerts for one owner. -/
def store3 : AlertStore := [("5817239686", [aBtc, aEth, aSol])]

/-- Sample store with a single triggering alert. -/
def storeBtc : AlertStore := [("5817239686", [aBtc])]

/-- Positions (0-based, increasing) of the elements of a list satisfying `p`:
the contents of `to_remove` on a run where every `send_message` succeeds. -/
def idxsOf (p : Alert → Bool) : List Alert → List Nat
  | [] => []
  | a :: t => if p a then 0 :: (idxsOf p t).map (· + 1) else (idxsOf p t).map (· + 1)

/-- Notifications one owner's alert list produces on a run where every
`send_message` succeeds. -/
def notifsOf (pr : String → Option Price) (u : String) : List Alert → List Notif
  | [] => []
  | a :: t =>
    match pr a.coin with
    | none => notifsOf pr u t
    | some cur =>
      if triggered a cur then { owner := u, alert := a, current := cur } :: notifsOf pr u t
      else notifsOf pr u t

/-- Notifications of a whole store on a fully successful run. -/
def notifsOfStore (pr : String → Option Price) : AlertStore → List Notif
  | [] => []
  | (u, l) :: t => notifsOf pr u l ++ notifsOfStore pr t

/-- Specification-side description of the store a successful poll cycle
persists: each owner keeps exactly their non-triggered alerts in order, and
owners left with no alerts lose their key. Proved below to coincide with
what `check_prices` computes. -/
def filterStore (pr : String → Option Price) (s : AlertStore) : AlertStore :=
  s.filterMap (fun p =>
    let l := p.2.filter (fun a => !shouldTrigger pr a)
    if l.isEmpty then none else some (p.1, l))

/-- Notifications carried by a cycle result, delivered whether the run
completed (`ok`) or aborted on a `send_message` exception (`error`). -/
def resultNotifs {α : Type} : Except (List Notif) (α × List Notif) → List Notif
  | Except.error ns => ns
  | Except.ok (_, ns) => ns

/-! ### Association-list lemmas for the store operations -/

lemma listByOwner_setOwner_self (s : AlertStore) (u : String) (l : List Alert) :
    listByOwner (setOwner s u l) u = l := by
  induction s with
  | nil => simp [setOwner, listByOwner]
  | cons p t ih =>
    by_cases hp : p.1 = u
    · simp [setOwner, listByOwner, hp]
    · simp [setOwner, listByOwner, hp, ih]

lemma listByOwner_setOwner_other (s : AlertStore) (u v : String) (l : List Alert)
    (hvu : v ≠ u) : listByOwner (setOwner s u l) v = listByOwner s v := by
  induction s with
  | nil => simp [setOwner, listByOwner, Ne.symm hvu]
  | cons p t ih =>
    by_cases hp : p.1 = u
    · simp [setOwner, listByOwner, hp, Ne.symm hvu]
    · have hs : setOwner (p :: t) u l = p :: setOwner t u l := by simp [setOwner, hp]
      rw [hs]
      by_cases hv : p.1 = v
      · simp [listByOwner, hv]
      · simp [listByOwner, hv, ih]

lemma listByOwner_popOwner_other (s : AlertStore) (u v : String) (hvu : v ≠ u) :
    listByOwner (popOwner s u) v = listByOwner s v := by
  induction s with
  | nil => simp [popOwner]
  | cons p t ih =>
    by_cases hp : p.1 = u
    · have hv : p.1 ≠ v := by rw [hp]; exact Ne.symm hvu
      have hs : popOwner (p :: t) u = t := by simp [popOwner, hp]
      rw [hs]
      simp [listByOwner, hv]
    · have hs : popOwner (p :: t) u = p :: popOwner t u := by simp [popOwner, hp]
      rw [hs]
      by_cases hv : p.1 = v
      · simp [listByOwner, hv]
      · simp [listByOwner, hv, ih]

/-! ### The reversed-pop loop removes exactly the collected indices -/

lemma foldl_eraseIdx_map_succ (a : Alert) :
    ∀ (J : List Nat) (t : List Alert),
      (J.map (· + 1)).foldl (fun acc i => acc.eraseIdx i) (a :: t) =
        a :: J.foldl (fun acc i => acc.eraseIdx i) t := by
  intro J
  induction J with
  | nil => intro t; rfl
  | cons j J ih =>
    intro t
    simp only [List.map_cons, List.foldl_cons, List.eraseIdx_cons_succ]
    exact ih (t.eraseIdx j)

lemma removeIndices_idxsOf (p : Alert → Bool) :
    ∀ l : List Alert, removeIndices l (idxsOf p l) = l.filter (fun a => !p a) := by
  intro l
  induction l with
  | nil => rfl
  | cons a t ih =>
    unfold removeIndices at ih ⊢
    cases hp : p a with
    | true =>
      have hi : idxsOf p (a :: t) = 0 :: (idxsOf p t).map (· + 1) := by
        simp [idxsOf, hp]
      rw [hi, List.reverse_cons, ← List.map_reverse, List.foldl_append,
        foldl_eraseIdx_map_succ, List.foldl_cons, List.foldl_nil,
        List.eraseIdx_cons_zero, ih]
      simp [List.filter_cons, hp]
    | false =>
      have hi : idxsOf p (a :: t) = (idxsOf p t).map (· + 1) := by
        simp [idxsOf, hp]
      rw [hi, ← List.map_reverse, foldl_eraseIdx_map_succ, ih]
      simp [List.filter_cons, hp]

/-! ### What the per-owner evaluation loop returns -/

lemma evalAlerts_ok_idxs (pr : String → Option Price) (nf : String → Alert → Price → Bool)
    (u : String) :
    ∀ (l : List Alert) (idxs : List Nat) (ns : List Notif),
      evalAlerts pr nf u l = Except.ok (idxs, ns) →
        idxs = idxsOf (shouldTrigger pr) l := by
  intro l
  induction l with
  | nil =>
    intro idxs ns h
    simp only [evalAlerts] at h
    cases h
    rfl
  | cons a t ih =>
    intro idxs ns h
    cases hpc : pr a.coin with
    | none =>
      cases he : evalAlerts pr nf u t with
      | error ns' => simp [evalAlerts, hpc, he] at h
      | ok r =>
        obtain ⟨I, N⟩ := r
        simp only [evalAlerts, hpc, he] at h
        cases h
        simp only [idxsOf, shouldTrigger, hpc]
        rw [ih I ns he]
        simp
    | some cur =>
      cases htr : triggered a cur with
      | false =>
        cases he : evalAlerts pr nf u t with
        | error ns' => simp [evalAlerts, hpc, htr, he] at h
        | ok r =>
          obtain ⟨I, N⟩ := r
          simp only [evalAlerts, hpc, htr, Bool.false_eq_true, if_false, he] at h
          cases h
          simp only [idxsOf, shouldTrigger, hpc, htr, Bool.false_eq_true, if_false]
          rw [ih I ns he]
      | true =>
        cases hn : nf u a cur with
        | false => simp [evalAlerts, hpc, htr, hn] at h
        | true =>
          cases he : evalAlerts pr nf u t with
          | error ns' => simp [evalAlerts, hpc, htr, hn, he] at h
          | ok r =>
            obtain ⟨I, N⟩ := r
            simp only [evalAlerts, hpc, htr, hn, if_pos rfl, he] at h
            cases h
            simp only [idxsOf, shouldTrigger, hpc, htr]
            rw [ih I N he]
            simp

lemma evalAlerts_all_ok (pr : String → Option Price) (nf : String → Alert → Price → Bool)
    (u : String) (hnf : ∀ v a c, nf v a c = true) :
    ∀ l : List Alert,
      evalAlerts pr nf u l =
        Except.ok (idxsOf (shouldTrigger pr) l, notifsOf pr u l) := by
  intro l
  induction l with
  | nil => rfl
  | cons a t ih =>
    cases hpc : pr a.coin with
    | none => simp [evalAlerts, hpc, ih, idxsOf, shouldTrigger, notifsOf]
    | some cur =>
      cases htr : triggered a cur with
      | false => simp [evalAlerts, hpc, htr, ih, idxsOf, shouldTrigger, notifsOf]
      | true => simp [evalAlerts, hpc, htr, hnf, ih, idxsOf, shouldTrigger, notifsOf]

lemma processUser_ok_store (pr : String → Option Price) (nf : String → Alert → Price → Bool)
    (u : String) (l l' : List Alert) (ns : List Notif)
    (h : processUser pr nf u l = Except.ok (l', ns)) :
    l' = l.filter (fun a => !shouldTrigger pr a) := by
  unfold processUser at h
  cases he : evalAlerts pr nf u l with
  | error ns' => rw [he] at h; cases h
  | ok r =>
    obtain ⟨idxs, N⟩ := r
    rw [he] at h
    cases h
    rw [evalAlerts_ok_idxs pr nf u l idxs ns he, removeIndices_idxsOf]

lemma processUser_all_ok (pr : String → Option Price) (nf : String → Alert → Price → Bool)
    (u : String) (hnf : ∀ v a c, nf v a c = true) (l : List Alert) :
    processUser pr nf u l =
      Except.ok (l.filter (fun a => !shouldTrigger pr a), notifsOf pr u l) := by
  unfold processUser
  rw [evalAlerts_all_ok pr nf u hnf l]
  show Except.ok (removeIndices l (idxsOf (shouldTrigger pr) l), notifsOf pr u l) = _
  rw [removeIndices_idxsOf]

/-! ### What the outer loop over owners returns -/

lemma filterStore_cons (pr : String → Option Price) (u : String) (l : List Alert)
    (t : AlertStore) :
    filterStore pr ((u, l) :: t) =
      if (l.filter (fun a => !shouldTrigger pr a)).isEmpty then filterStore pr t
      else (u, l.filter (fun a => !shouldTrigger pr a)) :: filterStore pr t := by
  unfold filterStore
  rw [List.filterMap_cons]
  cases hE : (l.filter (fun a => !shouldTrigger pr a)).isEmpty <;> simp [hE]

lemma runUsers_ok_store (pr : String → Option Price) (nf : String → Alert → Price → Bool) :
    ∀ (s s' : AlertStore) (ns : List Notif),
      runUsers pr nf s = Except.ok (s', ns) → s' = filterStore pr s := by
  intro s
  induction s with
  | nil =>
    intro s' ns h
    simp only [runUsers] at h
    cases h
    rfl
  | cons p t ih =>
    obtain ⟨u, l⟩ := p
    intro s' ns h
    cases hp : processUser pr nf u l with
    | error ns0 => simp [runUsers, hp] at h
    | ok r =>
      obtain ⟨l', ns0⟩ := r
      cases hr : runUsers pr nf t with
      | error ns1 => simp [runUsers, hp, hr] at h
      | ok r1 =>
        obtain ⟨t', ns1⟩ := r1
        simp only [runUsers, hp, hr] at h
        cases h
        rw [filterStore_cons, processUser_ok_store pr nf u l l' ns0 hp,
          ih t' ns1 hr]

lemma runUsers_all_ok (pr : String → Option Price) (nf : String → Alert → Price → Bool)
    (hnf : ∀ v a c, nf v a c = true) :
    ∀ s : AlertStore,
      runUsers pr nf s = Except.ok (filterStore pr s, notifsOfStore pr s) := by
  intro s
  induction s with
  | nil => rfl
  | cons p t ih =>
    obtain ⟨u, l⟩ := p
    rw [runUsers, processUser_all_ok pr nf u hnf l, ih, filterStore_cons]
    cases hE : (l.filter (fun a => !shouldTrigger pr a)).isEmpty <;>
      simp [hE, notifsOfStore]

/-! ### Every notification comes from an alert with a fetched price -/

lemma evalAlerts_notifs_price (pr : String → Option Price)
    (nf : String → Alert → Price → Bool) (u : String) :
    ∀ l : List Alert, ∀ n ∈ resultNotifs (evalAlerts pr nf u l),
      pr n.alert.coin = some n.current := by
  intro l
  induction l with
  | nil => intro n hn; simp [evalAlerts, resultNotifs] at hn
  | cons a t ih =>
    intro n hn
    cases hpc : pr a.coin with
    | none =>
      cases he : evalAlerts pr nf u t with
      | error ns =>
        simp only [evalAlerts, hpc, he, resultNotifs] at hn
        exact ih n (by rw [he]; exact hn)
      | ok r =>
        obtain ⟨I, N⟩ := r
        simp only [evalAlerts, hpc, he, resultNotifs] at hn
        exact ih n (by rw [he]; exact hn)
    | some cur =>
      cases htr : triggered a cur with
      | false =>
        cases he : evalAlerts pr nf u t with
        | error ns =>
          simp only [evalAlerts, hpc, htr, Bool.false_eq_true, if_false, he,
            resultNotifs] at hn
          exact ih n (by rw [he]; exact hn)
        | ok r =>
          obtain ⟨I, N⟩ := r
          simp only [evalAlerts, hpc, htr, Bool.false_eq_true, if_false, he,
            resultNotifs] at hn
          exact ih n (by rw [he]; exact hn)
      | true =>
        cases hn' : nf u a cur with
        | false =>
          simp [evalAlerts, hpc, htr, hn', resultNotifs] at hn
        | true =>
          cases he : evalAlerts pr nf u t with
          | error ns =>
            simp only [evalAlerts, hpc, htr, hn', if_true, he, resultNotifs,
              List.mem_cons] at hn
            rcases hn with hn | hn
            · subst hn; exact hpc
            · exact ih n (by rw [he]; exact hn)
          | ok r =>
            obtain ⟨I, N⟩ := r
            simp only [evalAlerts, hpc, htr, hn', if_true, he, resultNotifs,
              List.mem_cons] at hn
            rcases hn with hn | hn
            · subst hn; exact hpc
            · exact ih n (by rw [he]; exact hn)

lemma processUser_notifs_price (pr : String → Option Price)
    (nf : String → Alert → Price → Bool) (u : String) (l : List Alert) :
    ∀ n ∈ resultNotifs (processUser pr nf u l), pr n.alert.coin = some n.current := by
  intro n hn
  unfold processUser at hn
  cases he : evalAlerts pr nf u l with
  | error ns =>
    rw [he] at hn
    exact evalAlerts_notifs_price pr nf u l n (by rw [he]; exact hn)
  | ok r =>
    obtain ⟨I, N⟩ := r
    rw [he] at hn
    exact evalAlerts_notifs_price pr nf u l n (by rw [he]; exact hn)

lemma runUsers_notifs_price (pr : String → Option Price)
    (nf : String → Alert → Price → Bool) :
    ∀ s : AlertStore, ∀ n ∈ resultNotifs (runUsers pr nf s),
      pr n.alert.coin = some n.current := by
  intro s
  induction s with
  | nil => intro n hn; simp [runUsers, resultNotifs] at hn
  | cons p t ih =>
    obtain ⟨u, l⟩ := p
    intro n hn
    cases hp : processUser pr nf u l with
    | error ns =>
      simp only [runUsers, hp, resultNotifs] at hn
      exact processUser_notifs_price pr nf u l n (by rw [hp]; exact hn)
    | ok r =>
      obtain ⟨l', ns⟩ := r
      cases hr : runUsers pr nf t with
      | error ns2 =>
        simp only [runUsers, hp, hr, resultNotifs, List.mem_append] at hn
        rcases hn with hn | hn
        · exact processUser_notifs_price pr nf u l n (by rw [hp]; exact hn)
        · exact ih n (by rw [hr]; exact hn)
      | ok r2 =>
        obtain ⟨t', ns2⟩ := r2
        simp only [runUsers, hp, hr, resultNotifs, List.mem_append] at hn
        rcases hn with hn | hn
        · exact processUser_notifs_price pr nf u l n (by rw [hp]; exact hn)
        · exact ih n (by rw [hr]; exact hn)

lemma check_prices_notifs_price (s : AlertStore) (pr : String → Option Price)
    (nf : String → Alert → Price → Bool) :
    ∀ n ∈ (check_prices s (Except.ok pr) nf).2, pr n.alert.coin = some n.current := by
  intro n hn
  by_cases hs : s.isEmpty
  · simp [check_prices, hs] at hn
  · cases hr : runUsers pr nf s with
    | error ns =>
      have h2 : (check_prices s (Except.ok pr) nf).2 = ns := by
        simp [check_prices, hs, hr]
      rw [h2] at hn
      exact runUsers_notifs_price pr nf s n (by rw [hr]; exact hn)
    | ok r =>
      obtain ⟨s', ns⟩ := r
      have h2 : (check_prices s (Except.ok pr) nf).2 = ns := by
        simp [check_prices, hs, hr]
      rw [h2] at hn
      exact runUsers_notifs_price pr nf s n (by rw [hr]; exact hn)

/-! ### Projections of the filtered store -/

lemma listAll_filterStore (pr : String → Option Price) :
    ∀ s : AlertStore,
      listAll (filterStore pr s) = (listAll s).filter (fun a => !shouldTrigger pr a) := by
  intro s
  induction s with
  | nil => rfl
  | cons p t ih =>
    obtain ⟨u, l⟩ := p
    rw [filterStore_cons]
    cases hE : (l.filter (fun a => !shouldTrigger pr a)).isEmpty with
    | true =>
      have hnil : l.filter (fun a => !shouldTrigger pr a) = [] := List.isEmpty_iff.mp hE
      simp [hE, listAll, List.filter_append, hnil, ih]
    | false =>
      simp [hE, listAll, List.filter_append, ih]

lemma listByOwner_not_mem (u : String) :
    ∀ s : AlertStore, (∀ p ∈ s, p.1 ≠ u) → listByOwner s u = [] := by
  intro s
  induction s with
  | nil => intro _; rfl
  | cons p t ih =>
    intro h
    have hp : p.1 ≠ u := h p (List.mem_cons_self p t)
    simp only [listByOwner, if_neg hp]
    exact ih (fun q hq => h q (List.mem_cons_of_mem p hq))

lemma filterStore_keys_mem (pr : String → Option Price) :
    ∀ (s : AlertStore) (q : String × List Alert), q ∈ filterStore pr s →
      ∃ p ∈ s, q.1 = p.1 := by
  intro s q hq
  unfold filterStore at hq
  rw [List.mem_filterMap] at hq
  obtain ⟨p, hp, hpq⟩ := hq
  refine ⟨p, hp, ?_⟩
  by_cases hE : (p.2.filter (fun a => !shouldTrigger pr a)).isEmpty
  · simp [hE] at hpq
  · simp only [hE, Bool.false_eq_true, if_false, Option.some.injEq] at hpq
    rw [← hpq]

lemma listByOwner_filterStore (pr : String → Option Price) (u : String) :
    ∀ s : AlertStore, (s.map Prod.fst).Nodup →
      listByOwner (filterStore pr s) u =
        (listByOwner s u).filter (fun a => !shouldTrigger pr a) := by
  intro s
  induction s with
  | nil => intro _; rfl
  | cons p t ih =>
    obtain ⟨v, l⟩ := p
    intro hnd
    rw [List.map_cons, List.nodup_cons] at hnd
    obtain ⟨hv, hnd'⟩ := hnd
    rw [filterStore_cons]
    cases hE : (l.filter (fun a => !shouldTrigger pr a)).isEmpty with
    | true =>
      have hnil : l.filter (fun a => !shouldTrigger pr a) = [] := List.isEmpty_iff.mp hE
      rw [if_pos rfl]
      by_cases hvu : v = u
      · subst hvu
        have h0 : listByOwner (filterStore pr t) v = [] := by
          apply listByOwner_not_mem
          intro q hq
          intro hqu
          obtain ⟨p', hp', hqk⟩ := filterStore_keys_mem pr t q hq
          have hm : p'.1 ∈ List.map Prod.fst t := List.mem_map_of_mem Prod.fst hp'
          rw [← hqk, hqu] at hm
          exact hv hm
        rw [h0]
        simp [listByOwner, hnil]
      · rw [ih hnd']
        simp [listByOwner, hvu]
    | false =>
      rw [if_neg (by simp)]
      by_cases hvu : v = u
      · subst hvu
        simp [listByOwner]
      · simp only [listByOwner, if_neg hvu]
        exact ih hnd'

/-! ### Cycle-level store lemmas -/

lemma check_prices_fetch_error (s : AlertStore) (nf : String → Alert → Price → Bool) :
    check_prices s (Except.error ()) nf = (s, []) := by
  cases hs : s.isEmpty <;> simp [check_prices, hs]

lemma check_prices_all_ok (s : AlertStore) (pr : String → Option Price)
    (nf : String → Alert → Price → Bool) (hnf : ∀ v a c, nf v a c = true) :
    check_prices s (Except.ok pr) nf = (filterStore pr s, notifsOfStore pr s) := by
  by_cases hs : s.isEmpty
  · have h0 : s = [] := List.isEmpty_iff.mp hs
    subst h0
    simp [check_prices, filterStore, notifsOfStore]
  · simp [check_prices, hs, runUsers_all_ok pr nf hnf s]

lemma check_prices_store_cases (s : AlertStore)
    (f : Except Unit (String → Option Price)) (nf : String → Alert → Price → Bool) :
    (check_prices s f nf).1 = s ∨
      ∃ pr, f = Except.ok pr ∧ (check_prices s f nf).1 = filterStore pr s := by
  by_cases hs : s.isEmpty
  · left; simp [check_prices, hs]
  · cases f with
    | error e => left; simp [check_prices, hs]
    | ok pr =>
      cases hr : runUsers pr nf s with
      | error ns => left; simp [check_prices, hs, hr]
      | ok r =>
        obtain ⟨s', ns⟩ := r
        right
        refine ⟨pr, rfl, ?_⟩
        rw [← runUsers_ok_store pr nf s s' ns hr]
        simp [check_prices, hs, hr]

lemma evalAlerts_all_missing (pr : String → Option Price)
    (nf : String → Alert → Price → Bool) (u : String) :
    ∀ l : List Alert, (∀ a ∈ l, pr a.coin = none) →
      evalAlerts pr nf u l = Except.ok ([], []) := by
  intro l
  induction l with
  | nil => intro _; rfl
  | cons a t ih =>
    intro h
    have ha : pr a.coin = none := h a (List.mem_cons_self a t)
    have ht := ih (fun b hb => h b (List.mem_cons_of_mem a hb))
    simp [evalAlerts, ha, ht]

lemma runUsers_all_missing (pr : String → Option Price)
    (nf : String → Alert → Price → Bool) :
    ∀ s : AlertStore, WF s → (∀ a ∈ listAll s, pr a.coin = none) →
      runUsers pr nf s = Except.ok (s, []) := by
  intro s
  induction s with
  | nil => intro _ _; rfl
  | cons p t ih =>
    obtain ⟨u, l⟩ := p
    intro hwf h
    have hl : ∀ a ∈ l, pr a.coin = none := by
      intro a ha
      exact h a (by simp [listAll, List.mem_append]; left; exact ha)
    have he : evalAlerts pr nf u l = Except.ok ([], []) :=
      evalAlerts_all_missing pr nf u l hl
    have hp : processUser pr nf u l = Except.ok (l, []) := by
      unfold processUser
      rw [he]
      rfl
    have ht : runUsers pr nf t = Except.ok (t, []) := by
      apply ih
      · intro q hq; exact hwf q (List.mem_cons_of_mem _ hq)
      · intro a ha; exact h a (by simp [listAll, List.mem_append]; right; exact ha)
    have hne : l.isEmpty = false := by
      have := hwf (u, l) (List.mem_cons_self _ t)
      cases hl' : l.isEmpty
      · rfl
      · exact absurd (List.isEmpty_iff.mp hl') this
    simp [runUsers, hp, ht, hne]

lemma count_filter_of_pos (a : Alert) (q : Alert → Bool) (ha : q a = true) :
    ∀ l : List Alert, (l.filter q).count a = l.count a := by
  intro l
  induction l with
  | nil => rfl
  | cons b t ih =>
    by_cases hb : q b = true
    · simp [List.filter_cons, hb, List.count_cons, ih]
    · have hba : (b == a) = false := by
        rw [beq_eq_false_iff_ne]
        intro hEq
        rw [hEq] at hb
        exact hb ha
      simp [List.filter_cons, hb, List.count_cons, ih, hba]

/-! ### Remaining store lemmas -/

lemma listByOwner_popOwner_self (u : String) :
    ∀ s : AlertStore, (s.map Prod.fst).Nodup → listByOwner (popOwner s u) u = [] := by
  intro s
  induction s with
  | nil => intro _; rfl
  | cons p t ih =>
    obtain ⟨v, l⟩ := p
    intro hnd
    rw [List.map_cons, List.nodup_cons] at hnd
    obtain ⟨hv, hnd'⟩ := hnd
    by_cases hp : v = u
    · have hs : popOwner ((v, l) :: t) u = t := by simp [popOwner, hp]
      rw [hs]
      apply listByOwner_not_mem
      intro q hq hqu
      have hm : q.1 ∈ List.map Prod.fst t := List.mem_map_of_mem Prod.fst hq
      rw [hqu, ← hp] at hm
      exact hv hm
    · have hs : popOwner ((v, l) :: t) u = (v, l) :: popOwner t u := by
        simp [popOwner, hp]
      rw [hs]
      simp only [listByOwner, if_neg hp]
      exact ih hnd'

lemma mem_setOwner (u : String) (l : List Alert) :
    ∀ (s : AlertStore) (q : String × List Alert),
      q ∈ setOwner s u l → q = (u, l) ∨ q ∈ s := by
  intro s
  induction s with
  | nil =>
    intro q hq
    simp [setOwner] at hq
    left; exact hq
  | cons p t ih =>
    intro q hq
    by_cases hp : p.1 = u
    · rw [show setOwner (p :: t) u l = (u, l) :: t by
        cases p; simp only [setOwner]; rw [if_pos hp]] at hq
      rcases List.mem_cons.mp hq with h | h
      · left; exact h
      · right; exact List.mem_cons_of_mem p h
    · rw [show setOwner (p :: t) u l = p :: setOwner t u l by
        cases p; simp only [setOwner]; rw [if_neg hp]] at hq
      rcases List.mem_cons.mp hq with h | h
      · right; rw [h]; exact List.mem_cons_self p t
      · rcases ih q h with h' | h'
        · left; exact h'
        · right; exact List.mem_cons_of_mem p h'

lemma mem_popOwner (u : String) :
    ∀ (s : AlertStore) (q : String × List Alert), q ∈ popOwner s u → q ∈ s := by
  intro s
  induction s with
  | nil => intro q hq; simp [popOwner] at hq
  | cons p t ih =>
    intro q hq
    by_cases hp : p.1 = u
    · rw [show popOwner (p :: t) u = t by
        cases p; simp only [popOwner]; rw [if_pos hp]] at hq
      exact List.mem_cons_of_mem p hq
    · rw [show popOwner (p :: t) u = p :: popOwner t u by
        cases p; simp only [popOwner]; rw [if_neg hp]] at hq
      rcases List.mem_cons.mp hq with h | h
      · rw [h]; exact List.mem_cons_self p t
      · exact List.mem_cons_of_mem p (ih q h)

lemma WF_filterStore (pr : String → Option Price) (s : AlertStore) :
    WF (filterStore pr s) := by
  intro q hq
  unfold filterStore at hq
  rw [List.mem_filterMap] at hq
  obtain ⟨p, _, hpq⟩ := hq
  by_cases hE : (p.2.filter (fun a => !shouldTrigger pr a)).isEmpty
  · simp [hE] at hpq
  · simp only [hE, Bool.false_eq_true, if_false, Option.some.injEq] at hpq
    rw [← hpq]
    intro hnil
    have hnil2 : p.2.filter (fun a => !shouldTrigger pr a) = [] := hnil
    rw [hnil2] at hE
    exact hE rfl

/-! ### Claim theorems -/

/-- Claim C1: an alert evaluated against a fetched price triggers exactly when
(direction is "above" and the price is at or above the threshold) or
(direction is "below" and the price is at or below the threshold); a price
equal to the threshold triggers in both directions, and an "above" alert with
the price strictly below the threshold does not trigger. -/
theorem c1_trigger_condition (coin sym : String) (t cur : Price) :
    (triggered { coin := coin, symbol := sym, price := t, direction := "above" } cur
        = true ↔ t ≤ cur)
    ∧ (triggered { coin := coin, symbol := sym, price := t, direction := "below" } cur
        = true ↔ cur ≤ t)
    ∧ triggered { coin := coin, symbol := sym, price := t, direction := "above" } t = true
    ∧ triggered { coin := coin, symbol := sym, price := t, direction := "below" } t = true
    ∧ (cur < t →
        triggered { coin := coin, symbol := sym, price := t, direction := "above" } cur
          = false) := by
  have hab : (("above" : String) == "below") = false := by decide
  have hba : (("below" : String) == "above") = false := by decide
  refine ⟨?_, ?_, ?_, ?_, ?_⟩
  · simp [triggered, hab]
  · simp [triggered, hba]
  · simp [triggered, hab]
  · simp [triggered, hba]
  · intro h
    simp [triggered, hab, not_le.mpr h]

/-- Witness for C1 at threshold 2 and fetched price 1. -/
theorem c1_trigger_condition_witness :
    triggered { coin := "bitcoin", symbol := "btc", price := (2 : Price),
                direction := "above" } 1 = false :=
  (c1_trigger_condition "bitcoin" "btc" 2 1).2.2.2.2 (by norm_num)

/-- Claim C7: the claim says a corrupt backing file must not crash the load
and must degrade to an empty store; the code's `load_alerts` has no exception
handling around `json.load`, so a corrupt file makes the load raise
(`Except.error`) instead of returning the empty store — the claim fails on
the code. A missing file, by contrast, does yield the empty dict. -/
theorem c7_corrupt_load_raises :
    load_alerts FileContent.corrupt = Except.error ()
    ∧ (∀ s : AlertStore, load_alerts FileContent.corrupt ≠ Except.ok s)
    ∧ load_alerts FileContent.missing = Except.ok [] :=
  ⟨rfl, fun _ h => Except.noConfusion h, rfl⟩

/-- Counterexample to claim C8: `/add btc 0` passes every check in
`add_alert` — `float("0")` parses to `0` and there is no positivity test —
so an alert with threshold `0` is persisted, refuting "no persisted alert
created through the add operation has a zero or negative threshold". -/
theorem c8_zero_threshold_accepted :
    add_alert "5817239686" "btc" (some 0) none [] =
      Except.ok [("5817239686",
        [{ coin := "bitcoin", symbol := "btc", price := 0, direction := "above" }])]
    ∧ ¬((0 : Price) > 0) := by
  constructor
  · rfl
  · norm_num

/-- Claim C8 as amended: a successful add validates only that the symbol is
supported and that the price argument parses as a number; the parsed value is
appended unchanged as the stored threshold — for every price value, with no
positivity check. -/
theorem c8_amended_add_stores_parsed_price (uid symbolArg : String) (p : Price)
    (dirArg : Option String) (s : AlertStore) (coin : String)
    (hc : SYMBOL_MAP.lookup (lower symbolArg) = some coin) :
    ∃ s', add_alert uid symbolArg (some p) dirArg s = Except.ok s'
      ∧ listByOwner s' uid = listByOwner s uid ++
          [{ coin := coin, symbol := lower symbolArg, price := p,
             direction := parsedDirection dirArg }] := by
  refine ⟨setOwner s uid (listByOwner s uid ++
    [{ coin := coin, symbol := lower symbolArg, price := p,
       direction := parsedDirection dirArg }]), ?_, ?_⟩
  · simp only [add_alert, hc]
  · exact listByOwner_setOwner_self s uid _

/-- Witness for the amended C8: `/add btc -3` succeeds and stores the
negative threshold unchanged. -/
theorem c8_amended_witness :
    ∃ s', add_alert "5817239686" "btc" (some (-3)) none [] = Except.ok s'
      ∧ listByOwner s' "5817239686" = listByOwner ([] : AlertStore) "5817239686" ++
          [{ coin := "bitcoin", symbol := lower "btc", price := (-3 : Price),
             direction := parsedDirection none }] :=
  c8_amended_add_stores_parsed_price "5817239686" "btc" (-3) none [] "bitcoin" (by decide)

/-- Claim C2: a poll cycle whose price fetch fails leaves the persisted
collection unchanged, evaluates no alert, deletes nothing and sends nothing.
The first conjunct is the raising fetch (transport error or a body that is
not JSON): the `except` branch returns before the evaluation loop and before
`save_alerts`, so the file is untouched byte for byte. The second conjunct is
a fetch whose parsed body contains none of the requested coins (e.g. the
JSON error body of a non-success status, which `requests` does not raise on):
every alert is skipped and the saved collection equals the loaded one; `WF`
holds for every store the code itself writes. -/
theorem c2_fetch_failure_unchanged (s : AlertStore)
    (nf : String → Alert → Price → Bool) (pr : String → Option Price)
    (hwf : WF s) (hmiss : ∀ a ∈ listAll s, pr a.coin = none) :
    check_prices s (Except.error ()) nf = (s, [])
    ∧ check_prices s (Except.ok pr) nf = (s, []) := by
  refine ⟨check_prices_fetch_error s nf, ?_⟩
  by_cases hs : s.isEmpty
  · have h0 : s = [] := List.isEmpty_iff.mp hs
    subst h0
    rfl
  · simp [check_prices, hs, runUsers_all_missing pr nf s hwf hmiss]

/-- Witness for C2 on a concrete two-owner store and an empty fetched
mapping. -/
theorem c2_witness :
    check_prices sampleStore (Except.error ()) nfTrue = (sampleStore, [])
    ∧ check_prices sampleStore (Except.ok prNone) nfTrue = (sampleStore, []) :=
  c2_fetch_failure_unchanged sampleStore nfTrue prNone (by decide) (by decide)

/-- Claim C3: the claim says a triggered alert is deleted regardless of the
delivery outcome. The code has no `try`/`except` around `send_message`
(src/bot.py:529), so a raising delivery aborts `check_prices` before any pop
and before `save_alerts`: with a triggering alert and a failing delivery the
persisted store is unchanged and the alert is still listed — it will
re-trigger every cycle, contradicting the claim. -/
theorem c3_failed_delivery_keeps_alert :
    shouldTrigger prBtc aBtc = true
    ∧ check_prices storeBtc (Except.ok prBtc) nfFalse = (storeBtc, [])
    ∧ listByOwner (check_prices storeBtc (Except.ok prBtc) nfFalse).1
        "5817239686" = [aBtc]
    ∧ check_prices storeBtc (Except.ok prBtc) nfTrue =
        ([], [{ owner := "5817239686", alert := aBtc, current := 6 }]) := by
  refine ⟨by decide, by decide, by decide, by decide⟩

/-- Claim C4: an alert whose coin is absent from the fetched mapping is
skipped — it survives the cycle with unchanged multiplicity and no delivered
notification concerns its coin. -/
theorem c4_missing_price_skipped (s : AlertStore) (pr : String → Option Price)
    (nf : String → Alert → Price → Bool) (a : Alert) (h : pr a.coin = none) :
    (listAll (check_prices s (Except.ok pr) nf).1).count a = (listAll s).count a
    ∧ ∀ n ∈ (check_prices s (Except.ok pr) nf).2, n.alert.coin ≠ a.coin := by
  constructor
  · rcases check_prices_store_cases s (Except.ok pr) nf with h1 | ⟨pr', hpr, h1⟩
    · rw [h1]
    · have hpp : pr = pr' := by injection hpr
      subst hpp
      rw [h1, listAll_filterStore]
      apply count_filter_of_pos
      simp [shouldTrigger, h]
  · intro n hn hcoin
    have hp := check_prices_notifs_price s pr nf n hn
    rw [hcoin, h] at hp
    cases hp

/-- Witness for C4: in a cycle that fetches only bitcoin, the ethereum alert
is skipped. -/
theorem c4_witness :
    (listAll (check_prices sampleStore (Except.ok prBtc) nfTrue).1).count aEth =
      (listAll sampleStore).count aEth
    ∧ ∀ n ∈ (check_prices sampleStore (Except.ok prBtc) nfTrue).2,
        n.alert.coin ≠ aEth.coin :=
  c4_missing_price_skipped sampleStore prBtc nfTrue aEth (by decide)

/-- Claim C5: when every delivery succeeds, a poll cycle removes exactly the
triggered alerts: each owner's surviving list is their original list with the
triggered alerts filtered out (so order is preserved and non-triggered alerts
remain), and the same holds for the store-wide `listAll` read. The store's
owner keys are distinct, as they are for every JSON object. -/
theorem c5_exactly_triggered_removed (s : AlertStore) (pr : String → Option Price)
    (nf : String → Alert → Price → Bool) (hnf : ∀ v a c, nf v a c = true)
    (hnd : (s.map Prod.fst).Nodup) :
    (∀ u, listByOwner (check_prices s (Except.ok pr) nf).1 u =
        (listByOwner s u).filter (fun a => !shouldTrigger pr a))
    ∧ listAll (check_prices s (Except.ok pr) nf).1 =
        (listAll s).filter (fun a => !shouldTrigger pr a) := by
  have hst : (check_prices s (Except.ok pr) nf).1 = filterStore pr s := by
    rw [check_prices_all_ok s pr nf hnf]
  constructor
  · intro u
    rw [hst, listByOwner_filterStore pr u s hnd]
  · rw [hst, listAll_filterStore]

/-- Witness for C5 on the two-owner store with only bitcoin fetched. -/
theorem c5_witness :
    listByOwner (check_prices sampleStore (Except.ok prBtc) nfTrue).1 "5817239686" =
      (listByOwner sampleStore "5817239686").filter (fun a => !shouldTrigger prBtc a)
    ∧ listAll (check_prices sampleStore (Except.ok prBtc) nfTrue).1 =
        (listAll sampleStore).filter (fun a => !shouldTrigger prBtc a) :=
  ⟨(c5_exactly_triggered_removed sampleStore prBtc nfTrue (fun _ _ _ => rfl)
      (by decide)).1 "5817239686",
   (c5_exactly_triggered_removed sampleStore prBtc nfTrue (fun _ _ _ => rfl)
      (by decide)).2⟩

/-- Claim C6: a 1-based removal request with index outside `[1, len]` of the
owner's current list fails with the out-of-range error (and, as the handler
returns before `save_alerts`, changes nothing); an in-range index removes
exactly the i-th alert, leaving the survivors in their original relative
order and every other owner's list untouched. The store's owner keys are
distinct, as they are for every JSON object. -/
theorem c6_remove_at (uid : String) (i : Nat) (s : AlertStore)
    (hnd : (s.map Prod.fst).Nodup) :
    ((i < 1 ∨ (listByOwner s uid).length < i) →
        remove_alert uid i s = Except.error RemoveError.outOfRange)
    ∧ (1 ≤ i → i ≤ (listByOwner s uid).length →
        ∃ s' removed,
          remove_alert uid i s = Except.ok (s', removed)
          ∧ (listByOwner s uid).get? (i - 1) = some removed
          ∧ listByOwner s' uid =
              (listByOwner s uid).take (i - 1) ++ (listByOwner s uid).drop i
          ∧ ∀ v, v ≠ uid → listByOwner s' v = listByOwner s v) := by
  constructor
  · intro h
    have hc : ((i : Int) - 1 < 0 ∨ ((listByOwner s uid).length : Int) ≤ (i : Int) - 1) := by
      rcases h with h | h
      · left; omega
      · right; omega
    simp only [remove_alert]
    rw [if_pos hc]
  · intro h1 h2
    have hc : ¬((i : Int) - 1 < 0 ∨ ((listByOwner s uid).length : Int) ≤ (i : Int) - 1) := by
      push_neg
      constructor <;> omega
    have hlt : ((i : Int) - 1).toNat < (listByOwner s uid).length := by omega
    have htn : ((i : Int) - 1).toNat = i - 1 := by omega
    have hget : (listByOwner s uid).get? ((i : Int) - 1).toNat =
        some ((listByOwner s uid).get ⟨((i : Int) - 1).toNat, hlt⟩) :=
      List.get?_eq_get hlt
    have herase : (listByOwner s uid).eraseIdx ((i : Int) - 1).toNat =
        (listByOwner s uid).take (i - 1) ++ (listByOwner s uid).drop i := by
      rw [htn, List.eraseIdx_eq_take_drop_succ]
      have hi : i - 1 + 1 = i := by omega
      rw [hi]
    refine ⟨(if ((listByOwner s uid).eraseIdx ((i : Int) - 1).toNat).isEmpty
        then popOwner s uid
        else setOwner s uid ((listByOwner s uid).eraseIdx ((i : Int) - 1).toNat)),
      (listByOwner s uid).get ⟨((i : Int) - 1).toNat, hlt⟩, ?_, ?_, ?_, ?_⟩
    · simp only [remove_alert]
      rw [if_neg hc, hget]
    · rw [← htn]
      exact hget
    · by_cases hrem : ((listByOwner s uid).eraseIdx ((i : Int) - 1).toNat).isEmpty
      · rw [if_pos hrem, listByOwner_popOwner_self uid s hnd, ← herase]
        exact (List.isEmpty_iff.mp hrem).symm
      · rw [if_neg hrem, listByOwner_setOwner_self, herase]
    · intro v hv
      by_cases hrem : ((listByOwner s uid).eraseIdx ((i : Int) - 1).toNat).isEmpty
      · rw [if_pos hrem]
        exact listByOwner_popOwner_other s uid v hv
      · rw [if_neg hrem]
        exact listByOwner_setOwner_other s uid v _ hv

/-- Witness for C6: removing index 2 of 3 succeeds and keeps the other two
alerts in order; index 9 is rejected. -/
theorem c6_witness :
    (∃ s' removed,
        remove_alert "5817239686" 2 store3 = Except.ok (s', removed)
        ∧ (listByOwner store3 "5817239686").get? (2 - 1) = some removed
        ∧ listByOwner s' "5817239686" =
            (listByOwner store3 "5817239686").take (2 - 1) ++
              (listByOwner store3 "5817239686").drop 2
        ∧ ∀ v, v ≠ "5817239686" → listByOwner s' v = listByOwner store3 v)
    ∧ remove_alert "5817239686" 9 store3 = Except.error RemoveError.outOfRange :=
  ⟨(c6_remove_at "5817239686" 2 store3 (by decide)).2 (by decide) (by decide),
   (c6_remove_at "5817239686" 9 store3 (by decide)).1 (by decide)⟩

/-- Claim C9: the claim says every store operation's read-mutate-write runs in
one critical section, so a user's removal cannot be lost while the matcher is
mid-cycle. The code has no lock at all, and `check_prices` awaits
`send_message` between its `load_alerts()` and its `save_alerts()`; in the
interleaving where the `/remove` handler runs during that await, the handler's
successful removal of `aEth` is overwritten by the matcher's save of its stale
snapshot: the final persisted store still contains `aEth` (conjuncts 1-3),
whereas running the remove first and then the full cycle ends with `aEth`
gone (conjunct 4) — a lost update, refuting the claim. -/
theorem c9_lost_update :
    remove_alert "5817239686" 2 sampleStore =
      Except.ok ([("5817239686", [aBtc]), ("5274796002", [aEth])], aEth)
    ∧ (matcherRemoveInterleaving sampleStore (Except.ok prBtc) nfTrue
        "5817239686" 2).2 = [("5817239686", [aEth]), ("5274796002", [aEth])]
    ∧ aEth ∈ listByOwner
        (matcherRemoveInterleaving sampleStore (Except.ok prBtc) nfTrue
          "5817239686" 2).2 "5817239686"
    ∧ (check_prices [("5817239686", [aBtc]), ("5274796002", [aEth])]
        (Except.ok prBtc) nfTrue).1 = [("5274796002", [aEth])] := by
  refine ⟨rfl, by decide, by decide, by decide⟩

/-- Claim C10: every operation that writes the store preserves the invariant
that each owner key maps to a non-empty list — a successful add appends to
the touched owner's list, a successful remove pops the owner's key when the
last alert goes, and the poll cycle drops an owner's key when filtering
leaves it empty. -/
theorem c10_no_empty_owner_entry :
    (∀ (uid symbolArg : String) (pArg : Option Price) (dirArg : Option String)
        (s s' : AlertStore), WF s →
          add_alert uid symbolArg pArg dirArg s = Except.ok s' → WF s')
    ∧ (∀ (uid : String) (i : Nat) (s s' : AlertStore) (r : Alert),
        WF s → remove_alert uid i s = Except.ok (s', r) → WF s')
    ∧ (∀ (s : AlertStore) (f : Except Unit (String → Option Price))
        (nf : String → Alert → Price → Bool), WF s → WF (check_prices s f nf).1) := by
  refine ⟨?_, ?_, ?_⟩
  · intro uid symbolArg pArg dirArg s s' hwf heq
    cases hl : SYMBOL_MAP.lookup (lower symbolArg) with
    | none =>
      simp only [add_alert, hl] at heq
      exact Except.noConfusion heq
    | some coin =>
      simp only [add_alert, hl] at heq
      cases pArg with
      | none => simp at heq
      | some p =>
        simp only [Except.ok.injEq] at heq
        subst heq
        intro q hq
        rcases mem_setOwner uid _ s q hq with h | h
        · rw [h]
          simp
        · exact hwf q h
  · intro uid i s s' r hwf heq
    simp only [remove_alert] at heq
    by_cases hc : ((i : Int) - 1 < 0 ∨ ((listByOwner s uid).length : Int) ≤ (i : Int) - 1)
    · rw [if_pos hc] at heq
      exact Except.noConfusion heq
    · rw [if_neg hc] at heq
      cases hg : (listByOwner s uid).get? ((i : Int) - 1).toNat with
      | none => rw [hg] at heq; exact Except.noConfusion heq
      | some removed =>
        rw [hg] at heq
        simp only [Except.ok.injEq, Prod.mk.injEq] at heq
        obtain ⟨hs', _⟩ := heq
        subst hs'
        intro q hq
        by_cases hrem : ((listByOwner s uid).eraseIdx ((i : Int) - 1).toNat).isEmpty
        · rw [if_pos hrem] at hq
          exact hwf q (mem_popOwner uid s q hq)
        · rw [if_neg hrem] at hq
          rcases mem_setOwner uid _ s q hq with h | h
          · rw [h]
            intro hnil
            apply hrem
            simp only at hnil
            rw [hnil]
            rfl
          · exact hwf q h
  · intro s f nf hwf
    rcases check_prices_store_cases s f nf with h | ⟨pr, _, h⟩
    · rw [h]; exact hwf
    · rw [h]; exact WF_filterStore pr s

/-- Witness for C10: the invariant after a concrete add, a concrete remove,
and a concrete poll cycle. -/
theorem c10_witness :
    WF [("5817239686", [aBtc])]
    ∧ WF [("5817239686", [aEth, aSol])]
    ∧ WF (check_prices sampleStore (Except.error ()) nfTrue).1 :=
  ⟨c10_no_empty_owner_entry.1 "5817239686" "btc" (some 5) none []
      [("5817239686", [aBtc])] (by decide) rfl,
   c10_no_empty_owner_entry.2.1 "5817239686" 1 store3
      [("5817239686", [aEth, aSol])] aBtc (by decide) rfl,
   c10_no_empty_owner_entry.2.2 sampleStore (Except.error ()) nfTrue (by decide)⟩
